import Mathlib

attribute [local semireducible] Rat.add Rat.mul Rat.inv Rat.sub

/-
Shallow embedding of `scheduler.py`, the packet-by-packet Generalized
Processor Sharing scheduler of the beats jukebox.

Modelling conventions:
* Times, lengths and virtual time are exact rationals (the source uses
  Python floats; the numeric row types live in `db.py`, which is not among
  the sources, so they are modelled from the spec, which computes with exact
  arithmetic such as `10/3`).
* The packet store is a list of `Packet` rows in insertion (primary-key)
  order.  A SQL `order_by` on a single column fixes no order on equal keys;
  it is modelled as a stable sort over the row order.
* The player and the remote-metadata fetcher are external; they are
  modelled from the spec: the player is `nowPlaying : Option NowPlaying`
  that `stop()` resets, the fetcher is an oracle `String → Option (title,
  length)`, and the random row of `func.rand()` is an oracle argument.
* Python truthiness on optional strings (`if video_url:`) is modelled by
  `truthyOptStr`; `x or y` on an optional length falls through on `none`
  and on a zero value, as in the source.
-/

/-- Modelled from the spec: a `Song` row of the store (`db.py` is not among
the sources): surrogate `id`, file `path`, and `length` in seconds. -/
structure Song where
  id : Nat
  path : String
  length : ℚ
  deriving DecidableEq, Repr

/-- Modelled from the spec: a `Packet` row (`db.py` is not among the
sources).  Exactly one of `song_id` / `video_url` is set by the scheduler;
`additional_votes` holds the users of the packet's `Vote` rows. -/
structure Packet where
  id : Nat
  user : String
  song_id : Option Nat
  video_url : Option String
  video_title : Option String
  video_length : Option ℚ
  arrival_time : ℚ
  finish_time : ℚ
  additional_votes : List String
  deriving DecidableEq, Repr

/-- Modelled from the spec: `weight(packet) = 1 + |additional_votes|`
(`Packet.weight` lives in `db.py`, which is not among the sources). -/
def Packet.weight (p : Packet) : ℚ := 1 + p.additional_votes.length

/-- Modelled from the spec: the item the external player is playing, a
Local song id or a Remote video url. -/
inductive NowPlaying where
  | song (sid : Nat)
  | video (url : String)
  deriving DecidableEq, Repr

/-- The two module-level discard structures of the `Scheduler` class: the
bounded FIFO deque `discard_pile` (head = left end, the eviction side) and
its membership mirror `discard_set`. -/
structure DiscardState where
  discard_pile : List String
  discard_set : List String
  deriving DecidableEq, Repr

/-- The scheduler state: the in-memory fields of the `Scheduler` class
(`virtual_time`, `active_sessions`, the discard structures), the packet and
song tables of the store, the player, and the next packet surrogate id. -/
structure SchedState where
  virtual_time : ℚ
  packets : List Packet
  songs : List Song
  nowPlaying : Option NowPlaying
  active_sessions : Nat
  discard : DiscardState
  nextId : Nat
  deriving DecidableEq, Repr

/-- Python truthiness of an optional string (`None` and `''` are falsy). -/
def truthyOptStr : Option String → Bool
  | none => false
  | some s => !s.isEmpty

def songLen (songs : List Song) : Option Nat → ℚ
  | some sid => ((songs.find? (fun s => s.id == sid)).map Song.length).getD 0
  | none => 0

/-- The length used by `_update_finish_times`: `packet.video_length or
session.query(Song).get(packet.song_id).length` (Python `or` falls through
both on `None` and on a zero video length). -/
def packetLength (songs : List Song) (p : Packet) : ℚ :=
  match p.video_length with
  | some l => if l == 0 then songLen songs p.song_id else l
  | none => songLen songs p.song_id

/-- The `last_finish_time` dictionary of `_update_finish_times`, as an
association list with the most recent binding first. -/
def lookupUser (u : String) : List (String × ℚ) → Option ℚ
  | [] => none
  | (v, f) :: rest => if v == u then some f else lookupUser u rest

/-- The assignment loop of `_update_finish_times`: walk the packets in
arrival order, keeping each user's last finish time in `m`; a packet whose
user is not yet in `m` finishes at `arrival + length/weight`, a later one at
`max(last_finish, arrival) + length/weight`. -/
def assignFinishTimes (songs : List Song) : List (String × ℚ) → List Packet → List Packet
  | _, [] => []
  | m, p :: rest =>
    let len := packetLength songs p
    let nf : ℚ :=
      match lookupUser p.user m with
      | some lf => max lf p.arrival_time + len / p.weight
      | none => p.arrival_time + len / p.weight
    { p with finish_time := nf } :: assignFinishTimes songs ((p.user, nf) :: m) rest

/-- Comparison used to model `order_by(Packet.arrival_time)`. -/
def arrivalLe (p q : Packet) : Prop := p.arrival_time ≤ q.arrival_time

instance : DecidableRel arrivalLe :=
  fun p q => inferInstanceAs (Decidable (p.arrival_time ≤ q.arrival_time))

instance : IsTotal Packet arrivalLe :=
  ⟨fun p q => le_total p.arrival_time q.arrival_time⟩

instance : IsTrans Packet arrivalLe :=
  ⟨fun _ _ _ h h' => le_trans h h'⟩

/-- Comparison used to model `order_by(Packet.finish_time)`. -/
def finishLe (p q : Packet) : Prop := p.finish_time ≤ q.finish_time

instance : DecidableRel finishLe :=
  fun p q => inferInstanceAs (Decidable (p.finish_time ≤ q.finish_time))

instance : IsTotal Packet finishLe :=
  ⟨fun p q => le_total p.finish_time q.finish_time⟩

instance : IsTrans Packet finishLe :=
  ⟨fun _ _ _ h h' => le_trans h h'⟩

/-- `Scheduler._update_finish_times`: read the packets (of one user if a
user is given, else all) ordered by arrival time — ties keep store row
order, the query naming no further key — recompute their finish times, and
write them back onto the matching rows. -/
def updateFinishTimes (user? : Option String) (st : SchedState) : SchedState :=
  let affected :=
    match user? with
    | some u => st.packets.filter (fun p => p.user == u)
    | none => st.packets
  let sorted := List.insertionSort arrivalLe affected
  let updated := assignFinishTimes st.songs [] sorted
  { st with packets :=
      st.packets.map (fun p => ((updated.find? (fun q => q.id == p.id)).getD p)) }

/-- `Scheduler._update_active_sessions`: the count of distinct packet
users for this player. -/
def updateActiveSessions (st : SchedState) : SchedState :=
  { st with active_sessions := (st.packets.map Packet.user).dedup.length }

/-- `Scheduler.empty`: `active_sessions == 0`. -/
def emptyS (st : SchedState) : Bool := st.active_sessions == 0

/-- The GPS recurrence of spec section 4.2 along a list of packets: each
finish time equals `max(previous finish, arrival) + length/weight`, where a
`none` previous finish stands for minus infinity. -/
def chainOkB (songs : List Song) : Option ℚ → List Packet → Bool
  | _, [] => true
  | prev, p :: rest =>
    let base : ℚ :=
      match prev with
      | none => p.arrival_time
      | some f => max f p.arrival_time
    decide (p.finish_time = base + packetLength songs p / p.weight) &&
      chainOkB songs (some p.finish_time) rest

/-- Whether user `u`'s packets, taken in arrival order, satisfy the GPS
recurrence of spec section 4.2 in state `st`. -/
def userChainOkB (u : String) (st : SchedState) : Bool :=
  chainOkB st.songs none
    (List.insertionSort arrivalLe (st.packets.filter (fun p => p.user == u)))

/-- The row order produced by `order_by(Packet.finish_time)` in
`Scheduler.get_queue` and `Scheduler.play_next`: sorted by finish time
alone, ties keeping store row order (stable sort). -/
def queueOrder (st : SchedState) : List Packet := List.insertionSort finishLe st.packets

/-- Modelled from the spec: whether a queue row corresponds to the playing
item, matching Local by song id and Remote by url (the `dictify` shapes live
outside the sources; the spec fixes matching by kind and key). -/
def nowPlayingMatches (np : NowPlaying) (p : Packet) : Bool :=
  match np with
  | NowPlaying.song sid => p.song_id == some sid
  | NowPlaying.video url => p.video_url == some url

/-- `Scheduler.get_queue`: the packets ordered by finish time; if the
playing item is among them it is rotated to the front. -/
def getQueue (st : SchedState) : List Packet :=
  let q := queueOrder st
  match st.nowPlaying with
  | none => q
  | some np =>
    match q.findIdx? (nowPlayingMatches np) with
    | none => q
    | some i =>
      match q[i]? with
      | none => q
      | some x => x :: (q.take i ++ q.drop (i + 1))

/-- The ways `Scheduler.vote_song` raises. -/
inductive VoteError where
  | mustSpecify
  | alreadyVoted
  | unsupportedWebsite
  | lookupFailed
  | songNotFound
  deriving DecidableEq, Repr

def errOf {α : Type} : Except VoteError α → Option VoteError
  | Except.error e => some e
  | Except.ok _ => none

def okOf {α : Type} : Except VoteError α → Option α
  | Except.error _ => none
  | Except.ok a => some a

def startsWithChars : List Char → List Char → Bool
  | [], _ => true
  | _ :: _, [] => false
  | p :: ps, c :: cs => p == c && startsWithChars ps cs

def hasSubChars (pat : List Char) : List Char → Bool
  | [] => startsWithChars pat []
  | c :: cs => startsWithChars pat (c :: cs) || hasSubChars pat cs

/-- Python's substring containment `pat in s`. -/
def strContains (s pat : String) : Bool := hasSubChars pat.data s.data

/-- The already-queued branch of `Scheduler.vote_song`: the owner, or a user
already among the packet's votes (the vote-table uniqueness surfacing as a
FlushError), gets the already-voted error; otherwise the vote is appended
and the owner's finish times are recomputed. -/
def addVote (user : String) (pkt : Packet) (st : SchedState) : Except VoteError SchedState :=
  if user == pkt.user then Except.error VoteError.alreadyVoted
  else if pkt.additional_votes.contains user then Except.error VoteError.alreadyVoted
  else
    let st1 := { st with packets := st.packets.map (fun p =>
      if p.id == pkt.id then { p with additional_votes := p.additional_votes ++ [user] }
      else p) }
    Except.ok (updateFinishTimes (some pkt.user) st1)

/-- The enqueue-a-video branch of `Scheduler.vote_song`: the source gates on
the substring check `'www.youtube.com' in video_url` and then asks the
external fetcher (modelled as an oracle) for title and length. -/
def enqueueVideo (fetch : String → Option (String × ℚ)) (user url : String)
    (st : SchedState) : Except VoteError SchedState :=
  if strContains url "www.youtube.com" then
    match fetch url with
    | none => Except.error VoteError.lookupFailed
    | some td =>
      let pkt : Packet :=
        { id := st.nextId, user := user, song_id := none, video_url := some url,
          video_title := some td.1, video_length := some td.2,
          arrival_time := st.virtual_time, finish_time := 0, additional_votes := [] }
      let st1 := { st with packets := st.packets ++ [pkt], nextId := st.nextId + 1 }
      Except.ok (updateActiveSessions (updateFinishTimes (some user) st1))
  else Except.error VoteError.unsupportedWebsite

/-- The enqueue-a-song branch of `Scheduler.vote_song`: a missing song id
surfaces as an IntegrityError in the source. -/
def enqueueSong (user : String) (sid : Nat) (st : SchedState) : Except VoteError SchedState :=
  if (st.songs.find? (fun s => s.id == sid)).isSome then
    let pkt : Packet :=
      { id := st.nextId, user := user, song_id := some sid, video_url := none,
        video_title := none, video_length := none,
        arrival_time := st.virtual_time, finish_time := 0, additional_votes := [] }
    let st1 := { st with packets := st.packets ++ [pkt], nextId := st.nextId + 1 }
    Except.ok (updateActiveSessions (updateFinishTimes (some user) st1))
  else Except.error VoteError.songNotFound

/-- `Scheduler.vote_song`.  A truthy `video_url` is looked up first — even
when a `song_id` was also passed — else a non-None `song_id`; with neither,
the must-specify error.  A found packet receives a vote, a missing one is
enqueued at `arrival_time := virtual_time`. -/
def voteSong (fetch : String → Option (String × ℚ)) (user : String)
    (song_id : Option Nat) (video_url : Option String) (st : SchedState) :
    Except VoteError SchedState :=
  if truthyOptStr video_url then
    match st.packets.find? (fun p => p.video_url == video_url) with
    | some pkt => addVote user pkt st
    | none => enqueueVideo fetch user (video_url.getD "") st
  else if song_id.isSome then
    match st.packets.find? (fun p => p.song_id == song_id) with
    | some pkt => addVote user pkt st
    | none => enqueueSong user (song_id.getD 0) st
  else Except.error VoteError.mustSpecify

/-- `Scheduler.remove_song`: find the first packet with the given song id,
stop the player when that song is playing — jumping `virtual_time` to the
packet's finish time when `skip` — delete the packet, and refresh
`active_sessions`.  `none` models the exception the source raises when no
packet matches. -/
def removeSong (sid : Nat) (skip : Bool) (st : SchedState) : Option SchedState :=
  match st.packets.find? (fun p => p.song_id == some sid) with
  | none => none
  | some pkt =>
    let playingMatch : Bool :=
      match st.nowPlaying with
      | some (NowPlaying.song s) => s == sid
      | _ => false
    let st1 :=
      if playingMatch then
        { st with nowPlaying := none,
                  virtual_time := if skip then pkt.finish_time else st.virtual_time }
      else st
    let st2 := { st1 with packets := st1.packets.eraseP (fun p => p.song_id == some sid) }
    some (updateActiveSessions st2)

/-- `Scheduler.remove_video`: as `remove_song`, keyed by `video_url`. -/
def removeVideo (url : String) (skip : Bool) (st : SchedState) : Option SchedState :=
  match st.packets.find? (fun p => p.video_url == some url) with
  | none => none
  | some pkt =>
    let playingMatch : Bool :=
      match st.nowPlaying with
      | some (NowPlaying.video u) => u == url
      | _ => false
    let st1 :=
      if playingMatch then
        { st with nowPlaying := none,
                  virtual_time := if skip then pkt.finish_time else st.virtual_time }
      else st
    let st2 := { st1 with packets := st1.packets.eraseP (fun p => p.video_url == some url) }
    some (updateActiveSessions st2)

/-- `Scheduler.clear`: delete every packet of this player and stop the
player.  The source refreshes neither `active_sessions` nor any finish time
here. -/
def clearS (st : SchedState) : SchedState :=
  { st with packets := [], nowPlaying := none }

/-- `Scheduler._increment_virtual_time`: one ticker step of 0.25 s, spread
over the active sessions. -/
def tick (st : SchedState) : SchedState :=
  if emptyS st then st
  else { st with virtual_time := st.virtual_time + (1 / 4) / (st.active_sessions : ℚ) }

def tickN : Nat → SchedState → SchedState
  | 0, st => st
  | n + 1, st => tickN n (tick st)

/-- A fresh scheduler over library `songs` with an empty packet store
(`__init__` over an empty store leaves `virtual_time = 0`, no active
sessions, and nothing to recompute). -/
def initState (songs : List Song) : SchedState :=
  { virtual_time := 0, packets := [], songs := songs, nowPlaying := none,
    active_sessions := 0, discard := { discard_pile := [], discard_set := [] },
    nextId := 1 }

/-- `Scheduler.add_song_to_discard_pile`: append on the right, guarded by
the membership set. -/
def addSongToDiscardPile (s : DiscardState) (song : String) : DiscardState :=
  if s.discard_set.contains song then s
  else { discard_pile := s.discard_pile ++ [song], discard_set := song :: s.discard_set }

/-- `Scheduler.remove_song_from_discard_pile`: pop the left end and drop it
from the membership set when present (the source raises on an empty deque;
`trim_list` never reaches that case, modelled as a no-op). -/
def removeSongFromDiscardPile (s : DiscardState) : DiscardState :=
  match s.discard_pile with
  | [] => s
  | h :: t => { discard_pile := t, discard_set := s.discard_set.erase h }

/-- Python 2 `int()` applied to a rational: truncation toward zero
(`Int.div` is T-division). -/
def pyInt (q : ℚ) : ℤ := Int.tdiv q.num q.den

/-- `Scheduler.compute_max_discard_pile_size`:
`int(DONT_REPEAT_FOR * db_size)`, capped by `MAX_DONT_REPEAT_FOR` when that
config key is present. -/
def computeMaxDiscardPileSize (DR : ℚ) (MAX : Option Nat) (db_size : Nat) : ℤ :=
  match MAX with
  | none => pyInt (DR * db_size)
  | some mx => min (mx : ℤ) (pyInt (DR * db_size))

/-- The `while len > max` loop of `Scheduler.trim_list`; the fuel bounds the
iteration count (each pass pops one element, so the initial pile length
always suffices). -/
def trimGo (m : ℤ) : Nat → DiscardState → DiscardState
  | 0, s => s
  | fuel + 1, s =>
    if m < (s.discard_pile.length : ℤ) then trimGo m fuel (removeSongFromDiscardPile s)
    else s

/-- `Scheduler.trim_list`. -/
def trimList (m : ℤ) (s : DiscardState) : DiscardState := trimGo m s.discard_pile.length s

/-- One pass of the clean-up loop in `Scheduler.get_random_song`: pop a
filename off the right end of the deque and push it back on the left exactly
when it still exists among the library paths. -/
def housekeepGo (db_paths : List String) : Nat → List String → List String
  | 0, d => d
  | k + 1, d =>
    match d.getLast? with
    | none => housekeepGo db_paths k d
    | some x =>
      housekeepGo db_paths k (if db_paths.contains x then x :: d.dropLast else d.dropLast)

/-- The clean-up pass of `Scheduler.get_random_song` over the deque: the
loop body runs once per element of the pile (the membership set is not
touched by it, as in the source). -/
def housekeep (db_paths : List String) (d : List String) : List String :=
  housekeepGo db_paths d.length d

/-- `Scheduler.update_discard_pile_with_song`; the session count query is
the library size. -/
def updateDiscardPileWithSong (DR : ℚ) (MAX : Option Nat) (db_size : Nat)
    (s : DiscardState) (song : String) : DiscardState :=
  if DR != 0 && MAX != some 0 then
    let m := computeMaxDiscardPileSize DR MAX db_size
    if m != 0 then trimList m (addSongToDiscardPile s song) else s
  else s

/-- The discard-pile effect of `Scheduler.get_random_song`: with repetition
control off, nothing changes; with a zero bound the deque (only) is
cleared; otherwise the pile is purged of paths gone from the library and
trimmed, and the picked path — `pick` is the oracle for the random row —
is appended and trimmed again. -/
def getRandomSongPile (DR : ℚ) (MAX : Option Nat) (db_paths : List String)
    (pick : Option String) (s : DiscardState) : DiscardState :=
  if DR == 0 || MAX == some 0 then s
  else
    let m := computeMaxDiscardPileSize DR MAX db_paths.length
    let s1 :=
      if m == 0 then { s with discard_pile := [] }
      else trimList m { s with discard_pile := housekeep db_paths s.discard_pile }
    match pick with
    | some p => if m != 0 then trimList m (addSongToDiscardPile s1 p) else s1
    | none => s1

/-- `Scheduler.update_discard_pile_with_song` lifted to the scheduler
state. -/
def updateDiscardPileSched (DR : ℚ) (MAX : Option Nat) (st : SchedState)
    (path : String) : SchedState :=
  { st with discard := updateDiscardPileWithSong DR MAX st.songs.length st.discard path }

def songPath (songs : List Song) (sid : Nat) : String :=
  ((songs.find? (fun s => s.id == sid)).map Song.path).getD ""

/-- `Scheduler.play_next`.  `rnd` is the oracle for the random selection
(the id of the row `func.rand()` returned, if any).  The play-history append
is not modelled (nothing here reads it); the error branch of the synthesized
RANDOM vote cannot fire on an empty queue and is modelled as the identity. -/
def playNext (DR : ℚ) (MAX : Option Nat) (rnd : Option Nat) (skip : Bool)
    (st : SchedState) : SchedState :=
  let st :=
    if emptyS st then
      let st1 := { st with discard := (getRandomSongPile DR MAX (st.songs.map Song.path)
        (rnd.map (fun sid => songPath st.songs sid)) st.discard) }
      match rnd with
      | some sid =>
        match voteSong (fun _ => none) "RANDOM" (some sid) none st1 with
        | Except.ok st2 => st2
        | Except.error _ => st1
      | none => st1
    else st
  if emptyS st then st
  else
    let st :=
      match st.nowPlaying with
      | some (NowPlaying.video url) => (removeVideo url skip st).getD st
      | some (NowPlaying.song sid) => (removeSong sid skip st).getD st
      | none => st
    match (List.insertionSort finishLe st.packets).head? with
    | none => st
    | some pkt =>
      if truthyOptStr pkt.video_url then
        { st with nowPlaying := some (NowPlaying.video (pkt.video_url.getD "")) }
      else
        let st2 := updateDiscardPileSched DR MAX st (songPath st.songs (pkt.song_id.getD 0))
        { st2 with nowPlaying := some (NowPlaying.song (pkt.song_id.getD 0)) }

/-- The ordering claimed in spec section 4.2: `finish_time` ascending, then
`arrival_time` ascending, then packet id. -/
def claimLe (p q : Packet) : Bool :=
  decide (p.finish_time < q.finish_time) ||
    (decide (p.finish_time = q.finish_time) &&
      (decide (p.arrival_time < q.arrival_time) ||
        (decide (p.arrival_time = q.arrival_time) && decide (p.id ≤ q.id))))

/-- Whether a packet list is ordered as spec section 4.2 claims. -/
def claimOrdB : List Packet → Bool
  | [] => true
  | [_] => true
  | p :: q :: r => claimLe p q && claimOrdB (q :: r)

/-- One discard-pile-touching scheduler operation, over a fixed library and
configuration. -/
inductive DPStep (DR : ℚ) (MAX : Option Nat) (db_paths : List String) :
    DiscardState → DiscardState → Prop
  | update (s : DiscardState) (song : String) :
      DPStep DR MAX db_paths s (updateDiscardPileWithSong DR MAX db_paths.length s song)
  | randomSel (s : DiscardState) (pick : Option String) :
      DPStep DR MAX db_paths s (getRandomSongPile DR MAX db_paths pick s)

/-- Discard-pile states reachable from the initial empty pile. -/
inductive DPReach (DR : ℚ) (MAX : Option Nat) (db_paths : List String) :
    DiscardState → Prop
  | init : DPReach DR MAX db_paths { discard_pile := [], discard_set := [] }
  | step {s s' : DiscardState} : DPReach DR MAX db_paths s →
      DPStep DR MAX db_paths s s' → DPReach DR MAX db_paths s'

/-- The discard-pile invariant: the pile holds at most `M` entries, no path
twice, and every pile entry is mirrored in the membership set (the set may
hold stale extras — the source never prunes it on clears). -/
def DiscardPileInv (M : ℤ) (s : DiscardState) : Prop :=
  (s.discard_pile.length : ℤ) ≤ M ∧ s.discard_pile.Nodup ∧
    ∀ x ∈ s.discard_pile, x ∈ s.discard_set

/-- The fetcher oracle that always fails. -/
def noFetch : String → Option (String × ℚ) := fun _ => none

/-- A fetcher oracle that resolves every url to a 100-second video. -/
def ytFetch : String → Option (String × ℚ) := fun _ => some ("t", 100)

/-- Library of three ten-second songs (spec scenario S2). -/
def lib10 : List Song := [⟨1, "A", 10⟩, ⟨2, "B", 10⟩, ⟨3, "C", 10⟩]

/-- Library of two ten-second songs. -/
def libS1 : List Song := [⟨1, "A", 10⟩, ⟨2, "B", 10⟩]

/-- Library with a longer third song. -/
def lib5 : List Song := [⟨1, "A", 10⟩, ⟨2, "B", 10⟩, ⟨3, "C", 15⟩]

/-- Library of one sixty-second song (spec scenario S3). -/
def lib60 : List Song := [⟨1, "A", 60⟩]

def stA1 : SchedState :=
  (okOf (voteSong noFetch "u1" (some 1) none (initState libS1))).getD (initState libS1)

def stB1 : SchedState :=
  (okOf (voteSong noFetch "u1" (some 2) none stA1)).getD stA1

def stC1 : SchedState := (removeSong 1 false stB1).getD stB1

def pkt2B : Packet := ⟨2, "u1", some 2, none, none, none, 0, 20, []⟩

def stD3 : SchedState := clearS stA1

def stV1 : SchedState :=
  (okOf (voteSong noFetch "u1" (some 1) none (initState lib10))).getD (initState lib10)

def stV2 : SchedState := (okOf (voteSong noFetch "u1" (some 3) none stV1)).getD stV1

def stV3 : SchedState := (okOf (voteSong noFetch "u2" (some 2) none stV2)).getD stV2

def stV4 : SchedState := (okOf (voteSong noFetch "u3" (some 1) none stV3)).getD stV3

def stV5 : SchedState := (okOf (voteSong noFetch "u4" (some 1) none stV4)).getD stV4

def c5s1 : SchedState :=
  (okOf (voteSong noFetch "u1" (some 1) none (initState lib5))).getD (initState lib5)

def c5s2 : SchedState := playNext 0 none none false c5s1

def c5s3 : SchedState := tickN 60 c5s2

def c5s4 : SchedState := (okOf (voteSong noFetch "u2" (some 2) none c5s3)).getD c5s3

def c5s5 : SchedState := (removeSong 1 true c5s4).getD c5s4

def c5s6 : SchedState := (okOf (voteSong noFetch "u3" (some 3) none c5s5)).getD c5s5

def stBoth : SchedState :=
  (okOf (voteSong ytFetch "u1" (some 1) (some "http://www.youtube.com/watch")
    (initState lib10))).getD (initState lib10)

def badUrl : String := "http://example.com/a?x=www.youtube.com"

def stC7 : SchedState :=
  (okOf (voteSong ytFetch "u1" none (some badUrl) (initState lib10))).getD (initState lib10)

def c8s1 : SchedState :=
  (okOf (voteSong noFetch "u1" (some 1) none (initState lib60))).getD (initState lib60)

def c8s2 : SchedState := playNext 0 none none false c8s1

def c8s3 : SchedState := tickN 20 c8s2

def pkt60 : Packet := ⟨1, "u1", some 1, none, none, none, 0, 60, []⟩

def c8s4 : SchedState := (removeSong 1 true c8s3).getD c8s3

/-- A four-path library for the discard-pile witness. -/
def paths4 : List String := ["A", "B", "C", "D"]

/-- The initial empty discard state. -/
def dp0 : DiscardState := { discard_pile := [], discard_set := [] }

/-- A supported video url for the Remote half of the skip-remove witness. -/
def vidUrl : String := "http://www.youtube.com/watch?v=a"

def c8v1 : SchedState :=
  (okOf (voteSong ytFetch "u1" none (some vidUrl) (initState lib60))).getD (initState lib60)

def c8v2 : SchedState := playNext 0 none none false c8v1

def c8v3 : SchedState := tickN 20 c8v2

def pktV : Packet := ⟨1, "u1", none, some vidUrl, some "t", some 100, 0, 100, []⟩

def c8v4 : SchedState := (removeVideo vidUrl true c8v3).getD c8v3

/-- C2: from a fresh scheduler, `vote(u1,A); vote(u1,C); vote(u2,B);
vote(u3,A); vote(u4,A)` with all lengths 10 gives packet A weight 3 and
finish time exactly `10/3`, C finish time `10/3 + 10`, leaves u2's packet B
untouched at finish time 10, and orders the queue A, B, C: the division of
length by weight is exact, not truncating. -/
theorem votes_accelerate_with_exact_division :
    okOf (voteSong noFetch "u1" (some 1) none (initState lib10)) = some stV1 ∧
    okOf (voteSong noFetch "u1" (some 3) none stV1) = some stV2 ∧
    okOf (voteSong noFetch "u2" (some 2) none stV2) = some stV3 ∧
    okOf (voteSong noFetch "u3" (some 1) none stV3) = some stV4 ∧
    okOf (voteSong noFetch "u4" (some 1) none stV4) = some stV5 ∧
    stV5.packets.map (fun p => (p.song_id, p.weight, p.finish_time)) =
      [(some 1, 3, 10 / 3), (some 3, 1, 10 / 3 + 10), (some 2, 1, 10)] ∧
    (getQueue stV5).map Packet.song_id = [some 1, some 2, some 3] := by decide

/-- C3: `clear` deletes every packet but does not refresh
`active_sessions`, so afterwards `empty()` returns false although no packet
exists — the claimed equivalence fails on the `clear` path. -/
theorem clear_leaves_active_sessions_stale :
    okOf (voteSong noFetch "u1" (some 1) none (initState libS1)) = some stA1 ∧
    clearS stA1 = stD3 ∧ stD3.packets = [] ∧ stD3.active_sessions = 1 ∧
    emptyS stD3 = false := by decide

/-- C1 counterexample: after `vote(u1,A); vote(u1,B); remove(A)` the
remaining packet of u1 keeps finish time 20, but the GPS recurrence demands
`0 + 10/1 = 10` — the recurrence is not an invariant of every reachable
state, because `remove` does not recompute. -/
theorem gps_recurrence_not_invariant_after_remove :
    okOf (voteSong noFetch "u1" (some 1) none (initState libS1)) = some stA1 ∧
    okOf (voteSong noFetch "u1" (some 2) none stA1) = some stB1 ∧
    removeSong 1 false stB1 = some stC1 ∧
    stC1.packets.map (fun p => (p.user, p.arrival_time, p.finish_time)) =
      [("u1", 0, 20)] ∧
    userChainOkB "u1" stC1 = false := by decide

/-- C4 counterexample: `remove_song` deletes the packet and leaves the
surviving packets' finish times exactly as they were, so the recurrence
fails right after a `remove` returns. -/
theorem finish_times_stale_after_remove :
    removeSong 1 false stB1 = some stC1 ∧
    stB1.packets.map Packet.finish_time = [10, 20] ∧
    stC1.packets.map Packet.finish_time = [20] ∧
    userChainOkB "u1" stC1 = false := by decide

set_option maxRecDepth 4000 in
/-- C5 counterexample: a skip-remove can move `virtual_time` backwards, so
a later-inserted packet can have the smaller arrival time; on a finish-time
tie the queue then shows the packets in store row order — (id 2, arrival 15)
before (id 3, arrival 10) — not in arrival order as claimed. -/
theorem queue_tie_order_not_by_arrival_time :
    okOf (voteSong noFetch "u1" (some 1) none (initState lib5)) = some c5s1 ∧
    playNext 0 none none false c5s1 = c5s2 ∧
    tickN 60 c5s2 = c5s3 ∧ c5s3.virtual_time = 15 ∧
    okOf (voteSong noFetch "u2" (some 2) none c5s3) = some c5s4 ∧
    removeSong 1 true c5s4 = some c5s5 ∧ c5s5.virtual_time = 10 ∧
    okOf (voteSong noFetch "u3" (some 3) none c5s5) = some c5s6 ∧
    (queueOrder c5s6).map (fun p => (p.id, p.arrival_time, p.finish_time)) =
      [(2, 15, 25), (3, 10, 25)] ∧
    claimOrdB (queueOrder c5s6) = false := by decide

/-- C5 (amended): the order used by `get_queue` and by `play_next`'s pick is
by `finish_time` ascending and is a permutation of the stored packets; the
query names no further sort key, ties being left in store row order. -/
theorem queue_order_sorted_by_finish_time (st : SchedState) :
    List.Sorted finishLe (queueOrder st) ∧ (queueOrder st).Perm st.packets :=
  ⟨List.sorted_insertionSort finishLe st.packets,
   List.perm_insertionSort finishLe st.packets⟩

/-- C6 counterexample: supplying both a `song_id` and a `video_url` is not
rejected — the video branch is taken, the `song_id` is ignored, and a
Remote packet is enqueued. -/
theorem both_keys_given_not_rejected :
    errOf (voteSong ytFetch "u1" (some 1) (some "http://www.youtube.com/watch")
      (initState lib10)) = none ∧
    okOf (voteSong ytFetch "u1" (some 1) (some "http://www.youtube.com/watch")
      (initState lib10)) = some stBoth ∧
    stBoth.packets.map (fun p => (p.song_id, p.video_url)) =
      [(none, some "http://www.youtube.com/watch")] := by decide

/-- C4 (amended): `remove_song` only deletes — every packet surviving a
successful `remove_song` is exactly a packet of the previous state, finish
time included; no finish-time recomputation happens on this path. -/
theorem remove_song_does_not_recompute_finish_times (sid : Nat) (skip : Bool)
    (st st' : SchedState) (h : removeSong sid skip st = some st') :
    ∀ p ∈ st'.packets, p ∈ st.packets := by
  unfold removeSong at h
  cases hfind : st.packets.find? (fun p => p.song_id == some sid) with
  | none => rw [hfind] at h; exact absurd h (by simp)
  | some pkt =>
    rw [hfind] at h
    rw [Option.some.injEq] at h
    subst h
    intro p hp
    simp only [updateActiveSessions] at hp
    have hpk : ∀ c : Prop, ∀ inst : Decidable c,
        (if c then
            { st with nowPlaying := none,
                      virtual_time := if skip then pkt.finish_time else st.virtual_time }
          else st).packets = st.packets := by
      intro c inst
      split <;> rfl
    rw [hpk] at hp
    exact (List.eraseP_sublist st.packets).mem hp

/-- C4 witness at the two-packet trace: the surviving packet of the remove
is a packet of the pre-state, unchanged. -/
theorem remove_song_does_not_recompute_witness :
    removeSong 1 false stB1 = some stC1 ∧ pkt2B ∈ stC1.packets ∧ pkt2B ∈ stB1.packets :=
  ⟨by decide, by decide,
    remove_song_does_not_recompute_finish_times 1 false stB1 stC1 (by decide) pkt2B
      (by decide)⟩

/-- C8: removing with `skip = true` the packet corresponding to the item
currently playing — a Local song via `remove_song` or a Remote video via
`remove_video` — stops the player and sets `virtual_time` to that packet's
finish time. -/
theorem skip_remove_jumps_virtual_time (st : SchedState) (np : NowPlaying) (pkt : Packet)
    (hplay : st.nowPlaying = some np)
    (hfind : (match np with
      | NowPlaying.song sid => st.packets.find? (fun p => p.song_id == some sid)
      | NowPlaying.video url => st.packets.find? (fun p => p.video_url == some url)) =
        some pkt) :
    ∃ st', (match np with
      | NowPlaying.song sid => removeSong sid true st
      | NowPlaying.video url => removeVideo url true st) = some st' ∧
      st'.virtual_time = pkt.finish_time ∧ st'.nowPlaying = none := by
  cases np with
  | song sid =>
    dsimp only at hfind ⊢
    unfold removeSong
    rw [hfind, hplay]
    exact ⟨_, rfl, by simp [updateActiveSessions], by simp [updateActiveSessions]⟩
  | video url =>
    dsimp only at hfind ⊢
    unfold removeVideo
    rw [hfind, hplay]
    exact ⟨_, rfl, by simp [updateActiveSessions], by simp [updateActiveSessions]⟩

set_option maxRecDepth 4000 in
/-- C8 witness, both packet kinds.  Local half is spec scenario S3: enqueue
a 60-second song at `V = 0`, start playing it, tick to `V = 5`, then
`remove_song` it with skip: `V` jumps to 60 and the queue is empty.  Remote
half: enqueue a 100-second video, play it, tick to `V = 5`, then
`remove_video` it with skip: `V` jumps to 100 and the queue is empty. -/
theorem skip_remove_jumps_virtual_time_witness :
    okOf (voteSong noFetch "u1" (some 1) none (initState lib60)) = some c8s1 ∧
    playNext 0 none none false c8s1 = c8s2 ∧
    tickN 20 c8s2 = c8s3 ∧ c8s3.virtual_time = 5 ∧
    c8s3.nowPlaying = some (NowPlaying.song 1) ∧
    c8s3.packets.find? (fun p => p.song_id == some 1) = some pkt60 ∧
    (∃ st', removeSong 1 true c8s3 = some st' ∧ st'.virtual_time = pkt60.finish_time ∧
      st'.nowPlaying = none) ∧
    removeSong 1 true c8s3 = some c8s4 ∧
    c8s4.virtual_time = 60 ∧ c8s4.packets = [] ∧
    okOf (voteSong ytFetch "u1" none (some vidUrl) (initState lib60)) = some c8v1 ∧
    playNext 0 none none false c8v1 = c8v2 ∧
    tickN 20 c8v2 = c8v3 ∧ c8v3.virtual_time = 5 ∧
    c8v3.nowPlaying = some (NowPlaying.video vidUrl) ∧
    c8v3.packets.find? (fun p => p.video_url == some vidUrl) = some pktV ∧
    (∃ st', removeVideo vidUrl true c8v3 = some st' ∧ st'.virtual_time = pktV.finish_time ∧
      st'.nowPlaying = none) ∧
    removeVideo vidUrl true c8v3 = some c8v4 ∧
    c8v4.virtual_time = 100 ∧ c8v4.packets = [] :=
  ⟨by decide, by decide, by decide, by decide, by decide, by decide,
    skip_remove_jumps_virtual_time c8s3 (NowPlaying.song 1) pkt60 (by decide) (by decide),
    by decide, by decide, by decide,
    by decide, by decide, by decide, by decide, by decide, by decide,
    skip_remove_jumps_virtual_time c8v3 (NowPlaying.video vidUrl) pktV (by decide) (by decide),
    by decide, by decide, by decide⟩

theorem addVote_ne_mustSpecify (user : String) (pkt : Packet) (st : SchedState) :
    errOf (addVote user pkt st) ≠ some VoteError.mustSpecify := by
  unfold addVote
  split
  · simp [errOf]
  · split
    · simp [errOf]
    · simp [errOf]

theorem enqueueVideo_ne_mustSpecify (fetch : String → Option (String × ℚ))
    (user url : String) (st : SchedState) :
    errOf (enqueueVideo fetch user url st) ≠ some VoteError.mustSpecify := by
  unfold enqueueVideo
  split
  · split <;> simp [errOf]
  · simp [errOf]

theorem enqueueSong_ne_mustSpecify (user : String) (sid : Nat) (st : SchedState) :
    errOf (enqueueSong user sid st) ≠ some VoteError.mustSpecify := by
  unfold enqueueSong
  split <;> simp [errOf]

/-- C6 (amended): `vote_song` fails with the must-specify error exactly when
the `video_url` is falsy (absent or empty) and no `song_id` was given; in
particular, giving both keys is not rejected (the video branch is taken). -/
theorem must_specify_error_iff_neither_given (fetch : String → Option (String × ℚ))
    (user : String) (song_id : Option Nat) (video_url : Option String) (st : SchedState) :
    errOf (voteSong fetch user song_id video_url st) = some VoteError.mustSpecify ↔
      truthyOptStr video_url = false ∧ song_id = none := by
  unfold voteSong
  cases hv : truthyOptStr video_url with
  | true =>
    simp only [if_true]
    refine iff_of_false ?_ (by simp)
    cases hfind : st.packets.find? (fun p => p.video_url == video_url) with
    | some pkt => exact addVote_ne_mustSpecify user pkt st
    | none => exact enqueueVideo_ne_mustSpecify fetch user (video_url.getD "") st
  | false =>
    simp only [Bool.false_eq_true, if_false]
    cases hs : song_id with
    | some sid =>
      simp only [Option.isSome_some, if_true]
      refine iff_of_false ?_ (by simp)
      cases hfind : st.packets.find? (fun p => p.song_id == some sid) with
      | some pkt => exact addVote_ne_mustSpecify user pkt st
      | none => exact enqueueSong_ne_mustSpecify user ((some sid).getD 0) st
    | none =>
      simp [errOf]

/-- C7 (amended): a vote with a truthy `video_url` that is not already
queued fails with the unsupported-website error exactly when the substring
`www.youtube.com` does not occur in the url; on that failure nothing is
inserted and no state changes (an error result carries no state). -/
theorem unsupported_website_on_missing_substring (fetch : String → Option (String × ℚ))
    (user url : String) (st : SchedState)
    (hfind : st.packets.find? (fun p => p.video_url == some url) = none)
    (hurl : truthyOptStr (some url) = true)
    (hsub : strContains url "www.youtube.com" = false) :
    errOf (voteSong fetch user none (some url) st) = some VoteError.unsupportedWebsite := by
  unfold voteSong
  rw [hurl]
  simp only [if_true]
  rw [hfind]
  unfold enqueueVideo
  simp only [Option.getD_some]
  rw [hsub]
  simp [errOf]

/-- C7 witness, spec scenario S6: `vote(u1, video_url =
"http://example.com/x")` fails with the unsupported-website error. -/
theorem unsupported_website_witness :
    (initState lib10).packets.find?
      (fun p => p.video_url == some "http://example.com/x") = none ∧
    truthyOptStr (some "http://example.com/x") = true ∧
    strContains "http://example.com/x" "www.youtube.com" = false ∧
    errOf (voteSong noFetch "u1" none (some "http://example.com/x") (initState lib10)) =
      some VoteError.unsupportedWebsite :=
  ⟨by decide, by decide, by decide,
    unsupported_website_on_missing_substring noFetch "u1" "http://example.com/x"
      (initState lib10) (by decide) (by decide) (by decide)⟩

/-- C7 counterexample: the gate is a substring check, not a host check — a
url whose host is `example.com` but which mentions `www.youtube.com` in its
query string sails through, and with a successful fetch a packet is
inserted rather than the vote failing with UnsupportedSource. -/
theorem host_outside_provider_not_rejected :
    strContains badUrl "www.youtube.com" = true ∧
    errOf (voteSong ytFetch "u1" none (some badUrl) (initState lib10)) = none ∧
    okOf (voteSong ytFetch "u1" none (some badUrl) (initState lib10)) = some stC7 ∧
    stC7.packets.map (fun p => (p.user, p.video_url, p.finish_time)) =
      [("u1", some badUrl, 100)] := by decide

theorem housekeepGo_append (db_paths : List String) (pending : List String) :
    ∀ kept : List String,
      housekeepGo db_paths pending.length (kept ++ pending) =
        pending.filter (fun x => db_paths.contains x) ++ kept := by
  induction pending using List.reverseRecOn with
  | nil => intro kept; simp [housekeepGo]
  | append_singleton l a ih =>
    intro kept
    have hlen : (l ++ [a]).length = l.length + 1 := by simp
    rw [hlen]
    have hlast : (kept ++ (l ++ [a])).getLast? = some a := by
      rw [← List.append_assoc]
      exact List.getLast?_concat _
    have hdrop : (kept ++ (l ++ [a])).dropLast = kept ++ l := by
      rw [← List.append_assoc]
      exact List.dropLast_concat
    unfold housekeepGo
    rw [hlast, hdrop]
    dsimp only
    cases hc : db_paths.contains a with
    | true =>
      rw [if_pos rfl]
      have hsplit : a :: (kept ++ l) = (a :: kept) ++ l := rfl
      rw [hsplit, ih (a :: kept)]
      have hmem : a ∈ db_paths := by simpa using hc
      simp [List.filter_append, hmem]
    | false =>
      rw [if_neg (by simp)]
      rw [ih kept]
      have hmem : a ∉ db_paths := by simpa using hc
      simp [List.filter_append, hmem]

theorem housekeep_eq_filter (db_paths d : List String) :
    housekeep db_paths d = d.filter (fun x => db_paths.contains x) := by
  have h := housekeepGo_append db_paths d []
  simpa [housekeep] using h

/-- C10: the clean-up pass inside `get_random_song` removes exactly the
pile entries whose path no longer exists among the library paths, and keeps
the surviving entries in their original FIFO order: it equals a filter. -/
theorem housekeeping_purges_exactly_missing_paths (db_paths d : List String) :
    housekeep db_paths d = d.filter (fun x => db_paths.contains x) :=
  housekeep_eq_filter db_paths d

theorem addSong_nodup_sub (s : DiscardState) (x : String)
    (h1 : s.discard_pile.Nodup) (h2 : ∀ y ∈ s.discard_pile, y ∈ s.discard_set) :
    (addSongToDiscardPile s x).discard_pile.Nodup ∧
      (∀ y ∈ (addSongToDiscardPile s x).discard_pile,
        y ∈ (addSongToDiscardPile s x).discard_set) ∧
      (addSongToDiscardPile s x).discard_pile.length ≤ s.discard_pile.length + 1 := by
  unfold addSongToDiscardPile
  split
  · exact ⟨h1, h2, Nat.le_succ _⟩
  · rename_i hc
    refine ⟨?_, ?_, by simp⟩
    · rw [List.nodup_append]
      refine ⟨h1, List.nodup_singleton x, ?_⟩
      intro y hy hyx
      have hyx' : y = x := by simpa using hyx
      subst hyx'
      exact hc (by simpa using h2 y hy)
    · intro y hy
      rw [List.mem_append] at hy
      cases hy with
      | inl hy => exact List.mem_cons_of_mem _ (h2 y hy)
      | inr hy => simp at hy; subst hy; exact List.mem_cons_self _ _

theorem removeSong_nodup_sub (s : DiscardState)
    (h1 : s.discard_pile.Nodup) (h2 : ∀ y ∈ s.discard_pile, y ∈ s.discard_set) :
    (removeSongFromDiscardPile s).discard_pile.Nodup ∧
      ∀ y ∈ (removeSongFromDiscardPile s).discard_pile,
        y ∈ (removeSongFromDiscardPile s).discard_set := by
  unfold removeSongFromDiscardPile
  cases hp : s.discard_pile with
  | nil => rw [hp] at h1 h2 ⊢; exact ⟨h1, h2⟩
  | cons a t =>
    rw [hp] at h1 h2
    refine ⟨h1.of_cons, ?_⟩
    intro y hy
    have hne : y ≠ a := by
      intro h
      subst h
      exact (List.nodup_cons.mp h1).1 hy
    exact List.mem_erase_of_ne hne |>.mpr (h2 y (List.mem_cons_of_mem a hy))

theorem trimGo_nodup_sub (m : ℤ) :
    ∀ (fuel : Nat) (s : DiscardState),
      s.discard_pile.Nodup → (∀ y ∈ s.discard_pile, y ∈ s.discard_set) →
      (trimGo m fuel s).discard_pile.Nodup ∧
        ∀ y ∈ (trimGo m fuel s).discard_pile, y ∈ (trimGo m fuel s).discard_set := by
  intro fuel
  induction fuel with
  | zero => intro s h1 h2; exact ⟨h1, h2⟩
  | succ n ih =>
    intro s h1 h2
    unfold trimGo
    split
    · have h := removeSong_nodup_sub s h1 h2
      exact ih _ h.1 h.2
    · exact ⟨h1, h2⟩

theorem trimGo_length (m : ℤ) (hm : 0 ≤ m) :
    ∀ (fuel : Nat) (s : DiscardState),
      (s.discard_pile.length : ℤ) ≤ m + fuel →
      ((trimGo m fuel s).discard_pile.length : ℤ) ≤ m := by
  intro fuel
  induction fuel with
  | zero => intro s h; simpa [trimGo] using h
  | succ n ih =>
    intro s h
    unfold trimGo
    split
    · rename_i hlt
      apply ih
      cases hp : s.discard_pile with
      | nil =>
        rw [hp] at hlt
        simp at hlt
        omega
      | cons a t =>
        unfold removeSongFromDiscardPile
        rw [hp]
        rw [hp] at h
        simp at h ⊢
        omega
    · rename_i hge
      push_neg at hge
      exact hge

theorem trimList_inv (m : ℤ) (hm : 0 ≤ m) (s : DiscardState)
    (h1 : s.discard_pile.Nodup) (h2 : ∀ y ∈ s.discard_pile, y ∈ s.discard_set) :
    DiscardPileInv m (trimList m s) := by
  unfold trimList
  refine ⟨?_, (trimGo_nodup_sub m _ s h1 h2).1, (trimGo_nodup_sub m _ s h1 h2).2⟩
  exact trimGo_length m hm _ s (by omega)

theorem computeMax_nonneg (DR : ℚ) (MAX : Option Nat) (n : Nat) (hDR : 0 ≤ DR) :
    0 ≤ computeMaxDiscardPileSize DR MAX n := by
  have hq : (0 : ℚ) ≤ DR * n := mul_nonneg hDR (by positivity)
  have hnum : 0 ≤ (DR * (n : ℚ)).num := Rat.num_nonneg.mpr hq
  have hdiv : 0 ≤ pyInt (DR * n) := Int.tdiv_nonneg hnum (Int.ofNat_nonneg _)
  unfold computeMaxDiscardPileSize
  cases MAX with
  | none => exact hdiv
  | some mx => exact le_min (Int.ofNat_nonneg mx) hdiv

theorem updateDiscardPile_preserves (DR : ℚ) (MAX : Option Nat) (n : Nat) (hDR : 0 ≤ DR)
    (s : DiscardState) (song : String)
    (hInv : DiscardPileInv (computeMaxDiscardPileSize DR MAX n) s) :
    DiscardPileInv (computeMaxDiscardPileSize DR MAX n)
      (updateDiscardPileWithSong DR MAX n s song) := by
  unfold updateDiscardPileWithSong
  by_cases hg : (DR != 0 && MAX != some 0) = true
  · rw [if_pos hg]
    dsimp only
    by_cases hm : (computeMaxDiscardPileSize DR MAX n != 0) = true
    · rw [if_pos hm]
      have h := addSong_nodup_sub s song hInv.2.1 hInv.2.2
      exact trimList_inv _ (computeMax_nonneg DR MAX n hDR) _ h.1 h.2.1
    · rw [if_neg hm]; exact hInv
  · rw [if_neg hg]; exact hInv

theorem getRandomSongPile_preserves (DR : ℚ) (MAX : Option Nat)
    (db_paths : List String) (pick : Option String) (s : DiscardState) (hDR : 0 ≤ DR)
    (hInv : DiscardPileInv (computeMaxDiscardPileSize DR MAX db_paths.length) s) :
    DiscardPileInv (computeMaxDiscardPileSize DR MAX db_paths.length)
      (getRandomSongPile DR MAX db_paths pick s) := by
  unfold getRandomSongPile
  split
  · exact hInv
  · dsimp only
    have hM := computeMax_nonneg DR MAX db_paths.length hDR
    have hs1 : DiscardPileInv (computeMaxDiscardPileSize DR MAX db_paths.length)
        (if (computeMaxDiscardPileSize DR MAX db_paths.length == 0) = true
         then { s with discard_pile := [] }
         else trimList (computeMaxDiscardPileSize DR MAX db_paths.length)
           { s with discard_pile := housekeep db_paths s.discard_pile }) := by
      split
      · exact ⟨by simpa using hM, List.nodup_nil, by simp⟩
      · apply trimList_inv _ hM
        · show (housekeep db_paths s.discard_pile).Nodup
          rw [housekeep_eq_filter]
          exact hInv.2.1.filter _
        · show ∀ y ∈ housekeep db_paths s.discard_pile, y ∈ s.discard_set
          intro y hy
          rw [housekeep_eq_filter] at hy
          exact hInv.2.2 y (List.mem_of_mem_filter hy)
    cases pick with
    | none => exact hs1
    | some p =>
      dsimp only
      by_cases hm : (computeMaxDiscardPileSize DR MAX db_paths.length != 0) = true
      · rw [if_pos hm]
        have h := addSong_nodup_sub _ p hs1.2.1 hs1.2.2
        exact trimList_inv _ hM _ h.1 h.2.1
      · rw [if_neg hm]; exact hs1

theorem discard_pile_inv_reach (DR : ℚ) (MAX : Option Nat) (db_paths : List String)
    (hDR : 0 ≤ DR) (s : DiscardState) (h : DPReach DR MAX db_paths s) :
    DiscardPileInv (computeMaxDiscardPileSize DR MAX db_paths.length) s := by
  induction h with
  | init =>
    exact ⟨by simpa using computeMax_nonneg DR MAX db_paths.length hDR,
      List.nodup_nil, by simp⟩
  | step _ hstep ih =>
    cases hstep with
    | update song => exact updateDiscardPile_preserves DR MAX db_paths.length hDR _ song ih
    | randomSel pick => exact getRandomSongPile_preserves DR MAX db_paths pick _ hDR ih

/-- C9: in every discard-pile state reachable through the scheduler's
discard operations — over a fixed library and a nonnegative
`DONT_REPEAT_FOR`, as the spec's range requires — the pile holds at most
`M = min(MAX_DONT_REPEAT_FOR, int(DONT_REPEAT_FOR * |library|))` entries
(an absent cap meaning none) and never holds the same path twice. -/
theorem discard_pile_bounded_and_nodup (DR : ℚ) (MAX : Option Nat)
    (db_paths : List String) (s : DiscardState) (hDR : 0 ≤ DR)
    (h : DPReach DR MAX db_paths s) :
    (s.discard_pile.length : ℤ) ≤ computeMaxDiscardPileSize DR MAX db_paths.length ∧
      s.discard_pile.Nodup :=
  have hInv := discard_pile_inv_reach DR MAX db_paths hDR s h
  ⟨hInv.1, hInv.2.1⟩

/-- C9 witness: with `DONT_REPEAT_FOR = 3/4` over a four-song library,
after one played song the pile length (one) is within the bound (three) and
the pile has no duplicates. -/
theorem discard_pile_bounded_witness :
    0 ≤ (3 / 4 : ℚ) ∧
    (((updateDiscardPileWithSong (3 / 4) none paths4.length dp0 "A").discard_pile.length : ℤ) ≤
        computeMaxDiscardPileSize (3 / 4) none paths4.length ∧
      (updateDiscardPileWithSong (3 / 4) none paths4.length dp0 "A").discard_pile.Nodup) :=
  ⟨by decide,
    discard_pile_bounded_and_nodup (3 / 4) none paths4 _ (by decide)
      (DPReach.step DPReach.init (DPStep.update dp0 "A"))⟩

theorem chainOk_assign (songs : List Song) (u : String) :
    ∀ (l : List Packet) (m : List (String × ℚ)),
      chainOkB songs (lookupUser u m)
        ((assignFinishTimes songs m l).filter (fun p => p.user == u)) = true := by
  intro l
  induction l with
  | nil => intro m; rfl
  | cons p l' ih =>
    intro m
    rw [assignFinishTimes]
    rw [List.filter_cons]
    by_cases hpu : (p.user == u) = true
    · have hu : p.user = u := eq_of_beq hpu
      subst hu
      rw [if_pos (by simp)]
      rw [chainOkB.eq_def]
      dsimp only
      rw [Bool.and_eq_true]
      constructor
      · cases hlk : lookupUser p.user m with
        | none => exact decide_eq_true rfl
        | some lf => exact decide_eq_true rfl
      · have h2 := ih ((p.user,
          match lookupUser p.user m with
          | some lf => max lf p.arrival_time + packetLength songs p / p.weight
          | none => p.arrival_time + packetLength songs p / p.weight) :: m)
        rw [lookupUser] at h2
        rw [if_pos (by simp)] at h2
        exact h2
    · rw [if_neg (by simpa using hpu)]
      have h2 := ih ((p.user,
        match lookupUser p.user m with
        | some lf => max lf p.arrival_time + packetLength songs p / p.weight
        | none => p.arrival_time + packetLength songs p / p.weight) :: m)
      rw [lookupUser] at h2
      rw [if_neg (by simpa using hpu)] at h2
      exact h2

theorem assign_mem_proj (songs : List Song) :
    ∀ (l : List Packet) (m : List (String × ℚ)) (q : Packet),
      q ∈ assignFinishTimes songs m l →
      ∃ y ∈ l, q.id = y.id ∧ q.user = y.user ∧ q.arrival_time = y.arrival_time := by
  intro l
  induction l with
  | nil => intro m q hq; simp [assignFinishTimes] at hq
  | cons p l' ih =>
    intro m q hq
    rw [assignFinishTimes] at hq
    rcases List.mem_cons.mp hq with hq | hq
    · subst hq
      exact ⟨p, List.mem_cons_self _ _, rfl, rfl, rfl⟩
    · obtain ⟨y, hy, h⟩ := ih _ q hq
      exact ⟨y, List.mem_cons_of_mem _ hy, h⟩

theorem nodup_id_inj (l : List Packet) (h : (l.map Packet.id).Nodup) :
    ∀ x ∈ l, ∀ y ∈ l, x.id = y.id → x = y := by
  induction l with
  | nil => intro x hx; simp at hx
  | cons a t ih =>
    rw [List.map_cons, List.nodup_cons] at h
    intro x hx y hy hxy
    rcases List.mem_cons.mp hx with hx | hx <;> rcases List.mem_cons.mp hy with hy | hy
    · rw [hx, hy]
    · exfalso
      refine h.1 ?_
      have hxy' : a.id = y.id := by rw [← hx]; exact hxy
      rw [hxy']
      exact List.mem_map_of_mem Packet.id hy
    · exfalso
      refine h.1 ?_
      have hxy' : a.id = x.id := by rw [← hy]; exact hxy.symm
      rw [hxy']
      exact List.mem_map_of_mem Packet.id hx
    · exact ih h.2 x hx y hy hxy

theorem map_replaceById_assign (songs : List Song) :
    ∀ (l : List Packet) (m : List (String × ℚ)), (l.map Packet.id).Nodup →
      l.map (fun p => ((assignFinishTimes songs m l).find? (fun q => q.id == p.id)).getD p) =
        assignFinishTimes songs m l := by
  intro l
  induction l with
  | nil => intro m _; rfl
  | cons p l' ih =>
    intro m h
    rw [List.map_cons, List.nodup_cons] at h
    rw [assignFinishTimes]
    rw [List.map_cons]
    rw [List.find?_cons_of_pos _ (by simp)]
    rw [Option.getD_some]
    congr 1
    have hstep : ∀ x ∈ l',
        ((({ p with finish_time :=
            match lookupUser p.user m with
            | some lf => max lf p.arrival_time + packetLength songs p / p.weight
            | none => p.arrival_time + packetLength songs p / p.weight } : Packet) ::
          assignFinishTimes songs ((p.user,
            match lookupUser p.user m with
            | some lf => max lf p.arrival_time + packetLength songs p / p.weight
            | none => p.arrival_time + packetLength songs p / p.weight) :: m) l').find?
            (fun q => q.id == x.id)).getD x =
        ((assignFinishTimes songs ((p.user,
            match lookupUser p.user m with
            | some lf => max lf p.arrival_time + packetLength songs p / p.weight
            | none => p.arrival_time + packetLength songs p / p.weight) :: m) l').find?
            (fun q => q.id == x.id)).getD x := by
      intro x hx
      have hne : p.id ≠ x.id := by
        intro hid
        exact h.1 (by rw [hid]; exact List.mem_map_of_mem Packet.id hx)
      rw [List.find?_cons_of_neg _ (by simpa using hne)]
    rw [List.map_congr_left hstep]
    exact ih _ h.2

theorem arrivalLe_iff_of_arrival_eq {a b a' b' : Packet}
    (ha : a'.arrival_time = a.arrival_time) (hb : b'.arrival_time = b.arrival_time) :
    arrivalLe a b ↔ arrivalLe a' b' := by
  unfold arrivalLe
  rw [ha, hb]

theorem rep_preserves (songs : List Song) (packs : List Packet) (u : String)
    (hids : (packs.map Packet.id).Nodup) (p : Packet) (hp : p ∈ packs) :
    (((assignFinishTimes songs []
        (List.insertionSort arrivalLe (packs.filter (fun r => r.user == u)))).find?
        (fun q => q.id == p.id)).getD p).user = p.user ∧
    (((assignFinishTimes songs []
        (List.insertionSort arrivalLe (packs.filter (fun r => r.user == u)))).find?
        (fun q => q.id == p.id)).getD p).arrival_time = p.arrival_time := by
  cases hf : (assignFinishTimes songs []
      (List.insertionSort arrivalLe (packs.filter (fun r => r.user == u)))).find?
      (fun q => q.id == p.id) with
  | none => exact ⟨rfl, rfl⟩
  | some q =>
    have hqU := List.mem_of_find?_eq_some hf
    have hqid : q.id = p.id := by simpa using List.find?_some hf
    obtain ⟨y, hyS, hid, huser, harr⟩ := assign_mem_proj songs _ [] q hqU
    have hyF : y ∈ packs.filter (fun r => r.user == u) :=
      (List.perm_insertionSort arrivalLe _).subset hyS
    have hyP : y ∈ packs := List.mem_of_mem_filter hyF
    have hyp : y = p := nodup_id_inj packs hids y hyP p hp (by rw [← hid]; exact hqid)
    simp only [Option.getD_some]
    constructor
    · rw [huser, hyp]
    · rw [harr, hyp]

theorem assign_users_eq (songs : List Song) (packs : List Packet) (u : String) :
    ∀ q ∈ assignFinishTimes songs []
      (List.insertionSort arrivalLe (packs.filter (fun r => r.user == u))),
      (q.user == u) = true := by
  intro q hq
  obtain ⟨y, hyS, _, huser, _⟩ := assign_mem_proj songs _ [] q hq
  have hyF : y ∈ packs.filter (fun r => r.user == u) :=
    (List.perm_insertionSort arrivalLe _).subset hyS
  rw [huser]
  simpa using (List.mem_filter.mp hyF).2

/-- C1 (amended): immediately after `_update_finish_times` runs for user
`u` — as it does at the end of every successful vote — `u`'s packets, taken
in arrival order, satisfy the GPS recurrence
`finish = max(previous finish, arrival) + length/weight` with the previous
finish of the first packet read as minus infinity.  The store's surrogate
ids are assumed distinct. -/
theorem finish_time_recomputation_establishes_recurrence (st : SchedState) (u : String)
    (hids : (st.packets.map Packet.id).Nodup) :
    userChainOkB u (updateFinishTimes (some u) st) = true := by
  show chainOkB st.songs none
    (List.insertionSort arrivalLe
      ((st.packets.map (fun p => ((assignFinishTimes st.songs []
          (List.insertionSort arrivalLe (st.packets.filter (fun r => r.user == u)))).find?
          (fun q => q.id == p.id)).getD p)).filter (fun p => p.user == u))) = true
  rw [List.filter_map]
  have hcong : st.packets.filter ((fun p => p.user == u) ∘ fun p =>
      ((assignFinishTimes st.songs []
        (List.insertionSort arrivalLe (st.packets.filter (fun r => r.user == u)))).find?
        (fun q => q.id == p.id)).getD p) =
      st.packets.filter (fun r => r.user == u) := by
    apply List.filter_congr
    intro p hp
    simp only [Function.comp_apply]
    rw [(rep_preserves st.songs st.packets u hids p hp).1]
  rw [hcong]
  have hidsF : ((st.packets.filter (fun r => r.user == u)).map Packet.id).Nodup :=
    List.Nodup.sublist ((List.filter_sublist st.packets).map Packet.id) hids
  have hidsS : ((List.insertionSort arrivalLe
      (st.packets.filter (fun r => r.user == u))).map Packet.id).Nodup :=
    (((List.perm_insertionSort arrivalLe
      (st.packets.filter (fun r => r.user == u))).map Packet.id).nodup_iff).mpr hidsF
  have hl : ∀ a ∈ st.packets.filter (fun r => r.user == u),
      ∀ b ∈ st.packets.filter (fun r => r.user == u),
      arrivalLe a b ↔ arrivalLe
        (((assignFinishTimes st.songs []
          (List.insertionSort arrivalLe (st.packets.filter (fun r => r.user == u)))).find?
          (fun q => q.id == a.id)).getD a)
        (((assignFinishTimes st.songs []
          (List.insertionSort arrivalLe (st.packets.filter (fun r => r.user == u)))).find?
          (fun q => q.id == b.id)).getD b) := by
    intro a ha b hb
    exact arrivalLe_iff_of_arrival_eq
      (rep_preserves st.songs st.packets u hids a (List.mem_of_mem_filter ha)).2
      (rep_preserves st.songs st.packets u hids b (List.mem_of_mem_filter hb)).2
  rw [← List.map_insertionSort arrivalLe arrivalLe _ _ hl]
  rw [map_replaceById_assign st.songs _ [] hidsS]
  have hchain := chainOk_assign st.songs u
    (List.insertionSort arrivalLe (st.packets.filter (fun r => r.user == u))) []
  rw [List.filter_eq_self.mpr (assign_users_eq st.songs st.packets u)] at hchain
  exact hchain

/-- C1 witness: on the two-packet state of user u1 the recomputation
establishes the recurrence. -/
theorem finish_time_recomputation_witness :
    (stB1.packets.map Packet.id).Nodup ∧
    userChainOkB "u1" (updateFinishTimes (some "u1") stB1) = true :=
  ⟨by decide, finish_time_recomputation_establishes_recurrence stB1 "u1" (by decide)⟩
